import Mathlib

/-!
# Verification of the AMLL TTML lyric pipeline

A shallow embedding of the core of the `amll-ttml-db` repository:

* the timestamp codec (`parseTimespan` from the TTML reader, `msToTimestamp`
  from `src/scripts/ttml-writer.js`),
* the whitespace normalizer (`normalizeLyricLine` from the submit checker),
* the lyric validator (`checkLyric` from `src/scripts/lyric-checker.js`),
* the TTML reader's per-line parser (`parseParseLine`) and the background-line
  rendering of the TTML writer (`exportTTMLTextInner`).

JavaScript numbers are IEEE-754 binary64 values.  All numbers that occur in
the claims are either integral values, `Infinity`, `-Infinity`, or `NaN`; the
only place where non-integral doubles arise is inside `parseTimespan`, whose
arithmetic is modelled exactly by `jsRound` (correct rounding of an exact
rational to a 53-bit significand, round-to-nearest, ties-to-even), applied
after every elementary operation, exactly as IEEE-754 prescribes for the
magnitudes that occur here (no overflow / subnormals, which are unreachable
for the values in this development).
-/

namespace Amll

/-- The subset of JavaScript number values that occurs in the lyric pipeline:
integral finite values, the two infinities and `NaN`.  (Every number stored in
the document model is produced by `Math.floor`, `Math.min`/`Math.max` of such
values, integer literals, or `Infinity`, hence integral.) -/
inductive JSNum where
  | int (n : ℤ)
  | posInf
  | negInf
  | nan
deriving DecidableEq, Repr

namespace JSNum

/-- Model of `Number.isSafeInteger`: an integral value of magnitude at most `2^53 - 1`.
`Infinity`, `-Infinity` and `NaN` are not safe integers. -/
def isSafeInteger : JSNum → Bool
  | int n => n.natAbs ≤ 2 ^ 53 - 1
  | _ => false

/-- The JavaScript `<` comparison on our number subset (comparisons involving
`NaN` are false). -/
def jsLt : JSNum → JSNum → Bool
  | int a, int b => a < b
  | int _, posInf => true
  | negInf, int _ => true
  | negInf, posInf => true
  | _, _ => false

/-- Model of `Math.min` on our number subset (`NaN` propagates). -/
def jsMin : JSNum → JSNum → JSNum
  | nan, _ => nan
  | _, nan => nan
  | int a, int b => int (min a b)
  | int a, posInf => int a
  | posInf, int b => int b
  | posInf, posInf => posInf
  | negInf, _ => negInf
  | _, negInf => negInf

/-- Model of `Math.max` on our number subset (`NaN` propagates). -/
def jsMax : JSNum → JSNum → JSNum
  | nan, _ => nan
  | _, nan => nan
  | int a, int b => int (max a b)
  | int a, negInf => int a
  | negInf, int b => int b
  | negInf, negInf => negInf
  | posInf, _ => posInf
  | _, posInf => posInf

/-- JavaScript number-to-string conversion, restricted to our subset
(integral values print in decimal, as in ECMAScript for this range). -/
def jsToString : JSNum → String
  | int n => toString n
  | posInf => "Infinity"
  | negInf => "-Infinity"
  | nan => "NaN"

end JSNum

/-! ## IEEE-754 binary64 rounding, exactly

`jsRound q` is the binary64 value nearest to the rational `q`
(round-to-nearest, ties-to-even).  It is computed by scaling `q` by a power of
two into the significand range `[2^52, 2^53)`, rounding to an integer with
ties-to-even, and scaling back.  Overflow and subnormal underflow cannot occur
for the magnitudes in this development, so they are not modelled.

Rationals are represented as explicit numerator/denominator pairs (`Frac`,
denominator always positive, not necessarily reduced) so that every operation
is elementary integer arithmetic; the represented value is `num / den`. -/

/-- An unreduced rational: the value `num / den`, with `den > 0` at every
reachable value. -/
structure Frac where
  num : ℤ
  den : ℤ
deriving Repr

namespace Frac

/-- Embed an integer. -/
def ofInt (n : ℤ) : Frac := ⟨n, 1⟩

/-- Exact sum. -/
def add (a b : Frac) : Frac := ⟨a.num * b.den + b.num * a.den, a.den * b.den⟩

/-- Exact product. -/
def mul (a b : Frac) : Frac := ⟨a.num * b.num, a.den * b.den⟩

/-- Negation. -/
def neg (a : Frac) : Frac := ⟨-a.num, a.den⟩

/-- Value comparison `a < b` (denominators positive). -/
def blt (a b : Frac) : Bool := a.num * b.den < b.num * a.den

/-- Value comparison `a ≤ b` (denominators positive). -/
def ble (a b : Frac) : Bool := a.num * b.den ≤ b.num * a.den

/-- Floor `⌊a⌋` (denominator positive): floor division of the numerator. -/
def floor (a : Frac) : ℤ := a.num.fdiv a.den

end Frac

/-- Round a rational to an integer, round-half-to-even: compare the
fractional part `s - ⌊s⌋ = (num - ⌊s⌋·den)/den` against `1/2` by
cross-multiplication. -/
def roundHalfEven (s : Frac) : ℤ :=
  let f := s.floor
  let twoRem := 2 * (s.num - f * s.den)
  if twoRem < s.den then f
  else if s.den < twoRem then f + 1
  else if f % 2 = 0 then f else f + 1

/-- Scale `s` by powers of two into `[2^52, 2^53)`, returning the scaled value
together with the number of doublings performed (negative = halvings).  The
fuel bound `4200` covers the entire binary64 exponent range; the loop exits as
soon as the value is in range. -/
def normScale : ℕ → Frac → ℤ → Frac × ℤ
  | 0, s, k => (s, k)
  | fuel + 1, s, k =>
    if s.blt ⟨2 ^ 52, 1⟩ then normScale fuel ⟨s.num * 2, s.den⟩ (k + 1)
    else if (⟨2 ^ 53, 1⟩ : Frac).ble s then normScale fuel ⟨s.num, s.den * 2⟩ (k - 1)
    else (s, k)

/-- Correctly rounded conversion of a positive rational to binary64:
`roundHalfEven (q · 2^k) / 2^k` with `q · 2^k ∈ [2^52, 2^53)`. -/
def jsRoundPos (q : Frac) : Frac :=
  let p := normScale 4200 q 0
  let n := roundHalfEven p.1
  if 0 ≤ p.2 then ⟨n, 2 ^ p.2.toNat⟩ else ⟨n * 2 ^ (-p.2).toNat, 1⟩

/-- Correctly rounded conversion of a rational to binary64
(round-to-nearest, ties-to-even). -/
def jsRound (q : Frac) : Frac :=
  if q.num = 0 then ⟨0, 1⟩
  else if q.num < 0 then (jsRoundPos q.neg).neg
  else jsRoundPos q

/-- A JavaScript `+` on doubles: exact sum, then correct rounding. -/
def jsAdd (a b : Frac) : Frac := jsRound (a.add b)

/-- A JavaScript `*` on doubles: exact product, then correct rounding. -/
def jsMul (a b : Frac) : Frac := jsRound (a.mul b)

/-! ## Timestamp codec: `parseTimespan` (reader, `src/unnamed/part_004`)

```js
const timeRegexp =
  /^(((?<hour>[0-9]+):)?(?<min>[0-9]+):)?(?<sec>[0-9]+([.:]([0-9]+))?)/;
function parseTimespan(timeSpan) {
  const matches = timeRegexp.exec(timeSpan);
  if (matches) {
    const hour = Number(matches.groups?.hour || "0");
    const min = Number(matches.groups?.min || "0");
    const sec = Number(matches.groups?.sec.replace(/:/, ".") || "0");
    return Math.floor((hour * 3600 + min * 60 + sec) * 1000);
  } else {
    throw new TypeError(`时间戳字符串解析失败：${timeSpan}`);
  }
}
```

The regular expression is anchored only at the start; trailing characters are
ignored.  Since each `[0-9]+` is greedy and is always followed in the pattern
by a non-digit (`:` or `.`) or by nothing, the match is equivalent to the
deterministic tokenization implemented below: read a maximal digit run, then
inspect the next separator, preferring `min:sec` over a colon inside `sec`,
and `hour:min:sec` over both (the regex engine tries the longest optional
prefix first and digit runs never need to backtrack).  The value of each
group is converted with `Number(...)`, i.e. correctly rounded to binary64,
and the final expression is evaluated left-to-right in double arithmetic. -/

/-- Numeric value of a digit-character run, as read by JavaScript `Number`
on a string of decimal digits (exact integer value before rounding). -/
def natOfDigits (ds : List Char) : ℕ :=
  ds.foldl (fun a c => a * 10 + (c.toNat - 48)) 0

/-- Model of `Number` applied to a decimal string `ip` or `ip.frac`: the exact rational
value `ip + frac / 10 ^ |frac|`, correctly rounded to binary64. -/
def jsNumOfDec (ip : ℕ) (frac : List Char) : Frac :=
  jsRound ⟨ip * 10 ^ frac.length + natOfDigits frac, 10 ^ frac.length⟩

/-- Value of `Math.floor((hour * 3600 + min * 60 + sec) * 1000)` with every elementary
double operation correctly rounded, as JavaScript evaluates it
(left-to-right: `hour*3600`, `min*60`, their sum, `+ sec`, `* 1000`). -/
def timespanValue (hour min : ℕ) (ip : ℕ) (frac : List Char) : ℕ :=
  let h := jsRound (.ofInt hour)
  let m := jsRound (.ofInt min)
  let sec := jsNumOfDec ip frac
  (jsMul (jsAdd (jsAdd (jsMul h (.ofInt 3600)) (jsMul m (.ofInt 60))) sec)
    (.ofInt 1000)).floor.toNat

/-- The tokenization of `timeRegexp` on the beginning of the string: maximal
digit runs separated by single colons, with the `sec` group absorbing at most
one `.`- or `:`-separated fraction.  Returns `(hour, min, ip, frac)` of the
matched groups, or `none` when the regex fails (no leading digit). -/
def matchTimeGroups (cs : List Char) : Option (ℕ × ℕ × ℕ × List Char) :=
  let d1 := cs.takeWhile Char.isDigit
  let r1 := cs.dropWhile Char.isDigit
  if d1 = [] then none
  else
    match r1 with
    | ':' :: r2 =>
      let d2 := r2.takeWhile Char.isDigit
      let r3 := r2.dropWhile Char.isDigit
      if d2 = [] then
        -- "D:<nondigit>": the optional groups fail; sec = d1, rest ignored
        some (0, 0, natOfDigits d1, [])
      else
        match r3 with
        | ':' :: r4 =>
          let d3 := r4.takeWhile Char.isDigit
          if d3 = [] then
            -- "D:D:<nondigit>": min = d1, sec = d2
            some (0, natOfDigits d1, natOfDigits d2, [])
          else
            -- "D:D:D...": hour = d1, min = d2, sec = d3 with optional [.:]frac
            let r5 := r4.dropWhile Char.isDigit
            match r5 with
            | ':' :: r6 =>
              let d4 := r6.takeWhile Char.isDigit
              if d4 = [] then some (natOfDigits d1, natOfDigits d2, natOfDigits d3, [])
              else some (natOfDigits d1, natOfDigits d2, natOfDigits d3, d4)
            | '.' :: r6 =>
              let d4 := r6.takeWhile Char.isDigit
              if d4 = [] then some (natOfDigits d1, natOfDigits d2, natOfDigits d3, [])
              else some (natOfDigits d1, natOfDigits d2, natOfDigits d3, d4)
            | _ => some (natOfDigits d1, natOfDigits d2, natOfDigits d3, [])
        | '.' :: r4 =>
          let d3 := r4.takeWhile Char.isDigit
          if d3 = [] then some (0, natOfDigits d1, natOfDigits d2, [])
          else
            -- "D:D.D": min = d1, sec = d2.d3
            some (0, natOfDigits d1, natOfDigits d2, d3)
        | _ => some (0, natOfDigits d1, natOfDigits d2, [])
    | '.' :: r2 =>
      let d2 := r2.takeWhile Char.isDigit
      if d2 = [] then some (0, 0, natOfDigits d1, [])
      else
        -- "D.D": sec = d1.d2
        some (0, 0, natOfDigits d1, d2)
    | _ => some (0, 0, natOfDigits d1, [])

/-- Model of `parseTimespan`: `none` models the thrown `TypeError`. -/
def parseTimespan (s : String) : Option ℕ :=
  (matchTimeGroups s.data).map fun g => timespanValue g.1 g.2.1 g.2.2.1 g.2.2.2

/-! ## Timestamp codec: `msToTimestamp` (writer, `src/scripts/ttml-writer.js`)

```js
function msToTimestamp(timeMS) {
  if (!Number.isSafeInteger(timeMS) || timeMS < 0) {
    return "00:00.000";
  }
  if (timeMS === Infinity) {
    return "99:99.999";
  }
  timeMS = timeMS / 1000;
  const secs = timeMS % 60;
  timeMS = (timeMS - secs) / 60;
  const mins = timeMS % 60;
  const hrs = (timeMS - mins) / 60;
  const h = hrs.toString().padStart(2, "0");
  const m = mins.toString().padStart(2, "0");
  const s = secs.toFixed(3).padStart(6, "0");
  if (hrs > 0) { return `${h}:${m}:${s}`; } else { return `${m}:${s}`; }
}
```

Note the guard order: `Number.isSafeInteger(Infinity)` is `false`, so an
`Infinity` argument returns `"00:00.000"` from the first branch and the
`timeMS === Infinity` branch is unreachable.

For a safe non-negative integer `n`, `n / 1000`, the `%`-remainders and the
divisions are evaluated in double arithmetic; `%` and the subtraction/division
pairs are exact, so `mins` and `hrs` are the exact integers `n / 60000 % 60`
and `n / 3600000`, and `secs` is the double nearest `(n % 60000) / 1000`.
`secs.toFixed(3)` renders the 3-decimal value nearest `secs`, which is exactly
`n % 60000` milliseconds whenever the initial division error is below half of
`10^-3` (true for every `n` below `2^41`; all timestamps in this development
are far below that).  The model therefore computes the digit strings from `n`
by exact integer arithmetic. -/

/-- Model of `x.toString().padStart(2, "0")` for a natural number. -/
def padStart2 (n : ℕ) : List Char :=
  if n < 10 then ['0', Nat.digitChar n] else (Nat.repr n).data

/-- The three fraction digits produced by `toFixed(3)` for `n` thousandths,
`n < 1000`. -/
def padFrac3 (n : ℕ) : List Char :=
  if n < 10 then ['0', '0', Nat.digitChar n]
  else if n < 100 then '0' :: (Nat.repr n).data
  else (Nat.repr n).data

/-- Model of `secs.toFixed(3).padStart(6, "0")` where `secs` denotes `r / 1000` seconds
(`r < 60000` milliseconds): two padded integer-second digits, a dot, and three
fraction digits. -/
def secondsField (r : ℕ) : List Char :=
  padStart2 (r / 1000) ++ '.' :: padFrac3 (r % 1000)

/-- Behavior of `msToTimestamp` on a safe non-negative integer number of milliseconds. -/
def formatSafeMs (n : ℕ) : String :=
  let mins := n / 60000 % 60
  let hrs := n / 3600000
  if hrs > 0 then
    ⟨padStart2 hrs ++ ':' :: padStart2 mins ++ ':' :: secondsField (n % 60000)⟩
  else
    ⟨padStart2 mins ++ ':' :: secondsField (n % 60000)⟩

/-- Model of `msToTimestamp`. -/
def msToTimestamp (timeMS : JSNum) : String :=
  if ¬timeMS.isSafeInteger ∨ timeMS.jsLt (.int 0) then "00:00.000"
  else if timeMS = .posInf then "99:99.999"
  else
    match timeMS with
    | .int n => formatSafeMs n.toNat
    | _ => "00:00.000"

/-! ## Document model

The in-memory lyric model shared by the TTML reader (`parseLyric`), the
validator (`checkLyric`) and the writer (`exportTTMLText`): a list of lines,
each carrying timed syllables (`words`), translation/romanization text, the
background/duet flags and the line timestamps.

The optional `emptyBeat` field of a syllable (the `amll:empty-beat`
attribute) is carried through parse and write unchanged and never interacts
with any claim in this development, so it is omitted from the model. -/

/-- Model of JavaScript `String.prototype.trim`, over the character list
(whitespace restricted to ASCII, as in the whitespace normalizer). -/
def jsTrim (s : String) : String :=
  ⟨((s.data.dropWhile Char.isWhitespace).reverse.dropWhile Char.isWhitespace).reverse⟩

/-- A timed syllable of the document model (`word` objects in the source). -/
structure Word where
  word : String
  startTime : JSNum
  endTime : JSNum
deriving DecidableEq, Repr

/-- A lyric line of the document model. -/
structure Line where
  words : List Word
  translatedLyric : String
  romanLyric : String
  isBG : Bool
  isDuet : Bool
  startTime : JSNum
  endTime : JSNum
deriving DecidableEq, Repr

/-! ## Lyric validator: `checkLyric` (`src/scripts/lyric-checker.js`)

```js
export function checkLyric(lyric) {
  const errors = [];
  const indexedLyric = lyric.map((line, id) => ({ ...line, id }));
  if (indexedLyric.length === 0) { errors.push("歌词内容为空"); }
  for (const line of indexedLyric) {
    const originalLyric = line.words.map(v => v.word).join("").trim();
    if (originalLyric.length > 0) {
      console.log(`正在检查第 ${line.id + 1} 行:`, JSON.stringify(originalLyric));
      line.words.forEach((word, wordIndex) => {
        if (word.word.trim().length > 0) {
          if (word.startTime < 0) {
            errors.push(`第 ${line.id + 1} 行歌词的第 ${wordIndex + 1} 个单词 "${word.word}" 开始时间有误 (${word.startTime})`);
          }
          if (word.endTime < word.startTime) {
            errors.push(`第 ${line.id + 1} 行歌词的第 ${wordIndex + 1} 个单词 "${word.word}" 结束时间有误/小于开始时间 (${word.endTime})`);
          }
        }
      });
      if (line.startTime < 0) {
        errors.push(`第 ${line.id + 1} 行歌词 开始时间有误 (${line.startTime})`);
      }
      if (line.endTime < line.startTime) {
        errors.push(`第 ${line.id + 1} 行歌词 结束时间有误/小于开始时间 (${line.endTime})`);
      }
    } else {
      errors.push(`第 ${line.id + 1} 行歌词内容为空`);
    }
  }
  return errors;
}
```

The model is a total function (the JS function performs no throwing
operation on document-model values: every access is on fields the model
guarantees, and `console.log` is output only). -/

/-- Defects reported for one syllable (`line.words.forEach` body). -/
def checkWord (lineId wordIndex : ℕ) (w : Word) : List String :=
  if (jsTrim w.word).length > 0 then
    (if w.startTime.jsLt (.int 0) then
      ["第 " ++ toString (lineId + 1) ++ " 行歌词的第 " ++ toString (wordIndex + 1) ++
        " 个单词 \"" ++ w.word ++ "\" 开始时间有误 (" ++ w.startTime.jsToString ++ ")"]
    else []) ++
    (if w.endTime.jsLt w.startTime then
      ["第 " ++ toString (lineId + 1) ++ " 行歌词的第 " ++ toString (wordIndex + 1) ++
        " 个单词 \"" ++ w.word ++ "\" 结束时间有误/小于开始时间 (" ++ w.endTime.jsToString ++ ")"]
    else [])
  else []

/-- Defects reported for one line (`for (const line of indexedLyric)` body). -/
def checkLine (id : ℕ) (l : Line) : List String :=
  let originalLyric := jsTrim (String.join (l.words.map (·.word)))
  if originalLyric.length > 0 then
    (l.words.enum.map fun p => checkWord id p.1 p.2).flatten ++
    (if l.startTime.jsLt (.int 0) then
      ["第 " ++ toString (id + 1) ++ " 行歌词 开始时间有误 (" ++ l.startTime.jsToString ++ ")"]
    else []) ++
    (if l.endTime.jsLt l.startTime then
      ["第 " ++ toString (id + 1) ++ " 行歌词 结束时间有误/小于开始时间 (" ++
        l.endTime.jsToString ++ ")"]
    else [])
  else ["第 " ++ toString (id + 1) ++ " 行歌词内容为空"]

/-- Model of `checkLyric`: the defect list, in emission order. -/
def checkLyric (lyric : List Line) : List String :=
  (if lyric.length = 0 then ["歌词内容为空"] else []) ++
    (lyric.enum.map fun p => checkLine p.1 p.2).flatten

/-! ## TTML writer: background-line rendering (`src/scripts/ttml-writer.js`)

The fragment of `exportTTMLTextInner` that emits a background line as the
trailing `x-bg` span of its main line's `<p>` (lines 146–197 of the source):

```js
const nextLine = param[lineIndex + 1];
if (nextLine && nextLine.isBG) {
  lineIndex++;
  const bgLine = nextLine;
  const bgLineSpan = doc.createElement("span");
  bgLineSpan.setAttribute("ttm:role", "x-bg");
  if (bgLine.words.length > 1) {
    let beginTime = Infinity;
    let endTime = 0;
    for (let wordIndex = 0; wordIndex < bgLine.words.length; wordIndex++) {
      const word = bgLine.words[wordIndex];
      if (word.word.trim().length === 0) {
        bgLineSpan.appendChild(doc.createTextNode(word.word));
      } else {
        const span = createWordElement(word);
        if (wordIndex === 0) {
          span.prepend(doc.createTextNode("("));
        } else if (wordIndex === bgLine.words.length - 1) {
          span.appendChild(doc.createTextNode(")"));
        }
        bgLineSpan.appendChild(span);
        beginTime = Math.min(beginTime, word.startTime);
        endTime = Math.max(endTime, word.endTime);
      }
    }
    bgLineSpan.setAttribute("begin", msToTimestamp(beginTime));
    bgLineSpan.setAttribute("end", msToTimestamp(endTime));
  } else if (bgLine.words.length === 1) {
    const word = bgLine.words[0];
    bgLineSpan.appendChild(doc.createTextNode(`(${word.word})`));
    bgLineSpan.setAttribute("begin", msToTimestamp(word.startTime));
    bgLineSpan.setAttribute("end", msToTimestamp(word.endTime));
  }
  if (bgLine.translatedLyric) { ...x-translation span... }
  if (bgLine.romanLyric) { ...x-roman span... }
  lineP.appendChild(bgLineSpan);
}
```

Note that `span.prepend("(")` / `span.appendChild(")")` are unconditional:
no check for an already-present parenthesis is made.  A span's rendered text
is modelled by its concatenated text content. -/

/-- An emitted `<span>` inside the `x-bg` span: its role attribute (absent
for syllable spans created by `createWordElement`), its `begin`/`end`
attributes, and its text content. -/
structure OutSpan where
  role : Option String
  beginAttr : Option String
  endAttr : Option String
  content : String
deriving DecidableEq, Repr

/-- A child node appended to the `x-bg` span: a bare text node or a span. -/
inductive BgChild where
  | textNode (s : String)
  | span (sp : OutSpan)
deriving DecidableEq, Repr

/-- The text contributed by a child to the rendered output. -/
def BgChild.contentOf : BgChild → String
  | textNode s => s
  | span sp => sp.content

/-- Model of `createWordElement` (the `amll:empty-beat` attribute is omitted,
see the document model). -/
def createWordElement (w : Word) : OutSpan :=
  { role := none
    beginAttr := some (msToTimestamp w.startTime)
    endAttr := some (msToTimestamp w.endTime)
    content := w.word }

/-- The `for (let wordIndex = 0; ...)` loop of the multi-syllable background
branch: children accumulated in order, plus the running
`Math.min`/`Math.max` of the begin/end times of non-whitespace syllables. -/
def renderBgGo (len : ℕ) : List Word → ℕ → List BgChild → JSNum → JSNum →
    List BgChild × JSNum × JSNum
  | [], _, acc, bt, et => (acc, bt, et)
  | w :: rest, idx, acc, bt, et =>
    if (jsTrim w.word).length = 0 then
      renderBgGo len rest (idx + 1) (acc ++ [.textNode w.word]) bt et
    else
      let sp := createWordElement w
      let sp :=
        if idx = 0 then { sp with content := "(" ++ sp.content }
        else if idx = len - 1 then { sp with content := sp.content ++ ")" }
        else sp
      renderBgGo len rest (idx + 1) (acc ++ [.span sp]) (bt.jsMin w.startTime)
        (et.jsMax w.endTime)

/-- The children and accumulated times of the multi-syllable background
branch (`bgLine.words.length > 1`). -/
def renderBgWords (ws : List Word) : List BgChild × JSNum × JSNum :=
  renderBgGo ws.length ws 0 [] .posInf (.int 0)

/-- Model of the whole `x-bg` span construction for a background line: the
child list and the `begin`/`end` attributes (absent when the line has no
syllables, since neither branch runs). -/
def renderBgSpan (bgLine : Line) : List BgChild × Option String × Option String :=
  let core :=
    if bgLine.words.length > 1 then
      let r := renderBgWords bgLine.words
      (r.1, some (msToTimestamp r.2.1), some (msToTimestamp r.2.2))
    else
      match bgLine.words with
      | [w] => ([.textNode ("(" ++ w.word ++ ")")],
          some (msToTimestamp w.startTime), some (msToTimestamp w.endTime))
      | _ => ([], none, none)
  let withTrans :=
    if bgLine.translatedLyric ≠ "" then
      core.1 ++ [.span ⟨some "x-translation", none, none, bgLine.translatedLyric⟩]
    else core.1
  let withRoman :=
    if bgLine.romanLyric ≠ "" then
      withTrans ++ [.span ⟨some "x-roman", none, none, bgLine.romanLyric⟩]
    else withTrans
  (withRoman, core.2.1, core.2.2)

/-- A middle (neither first nor last) syllable renders as a bare text node if
whitespace-only, else as an unparenthesized word span. -/
def midBgChild (w : Word) : BgChild :=
  if (jsTrim w.word).length = 0 then .textNode w.word else .span (createWordElement w)

/-! ## TTML reader: `parseLyricInner` / `parseParseLine` (`src/unnamed/part_004`)

```js
function parseLyricInner(ttmlDoc) {
  let mainAgentId = "v1";
  const metadata = [];
  ... // amll:meta collection: touches only `metadata`, never `lyricLines`
  for (const agent of ttmlDoc.querySelectorAll("ttm\\:agent")) {
    if (agent.getAttribute("type") === "person") {
      const id = agent.getAttribute("xml:id");
      if (id) { mainAgentId = id; break; }
    }
  }
  const lyricLines = [];
  function parseParseLine(lineEl, isBG = false) {
    const line = { words: [], translatedLyric: "", romanLyric: "", isBG,
      isDuet: !!lineEl.getAttribute("ttm:agent") &&
              lineEl.getAttribute("ttm:agent") !== mainAgentId,
      startTime: 0, endTime: 0 };
    let haveBg = false;
    const startTime = lineEl.getAttribute("begin");
    const endTime = lineEl.getAttribute("end");
    if (startTime && endTime) {
      line.startTime = parseTimespan(startTime);
      line.endTime = parseTimespan(endTime);
    } else {
      line.startTime = line.words.reduce((pv, cv) => Math.min(pv, cv.startTime), Infinity);
      line.endTime = line.words.reduce((pv, cv) => Math.max(pv, cv.endTime), 0);
    }
    for (const wordNode of lineEl.childNodes) {
      if (wordNode.nodeType === ttmlDoc.TEXT_NODE) {
        const word = wordNode.textContent ?? "";
        line.words.push({ word: word,
          startTime: word.trim().length > 0 ? line.startTime : 0,
          endTime: word.trim().length > 0 ? line.endTime : 0 });
      } else if (wordNode.nodeType === ttmlDoc.ELEMENT_NODE) {
        const wordEl = wordNode;
        const role = wordEl.getAttribute("ttm:role");
        if (wordEl.nodeName.toLowerCase() === "span" && role) {
          if (role === "x-bg") { parseParseLine(wordEl, true); haveBg = true; }
          else if (role === "x-translation") { line.translatedLyric = wordEl.textContent ?? ""; }
          else if (role === "x-roman") { line.romanLyric = wordEl.textContent ?? ""; }
        } else if (wordEl.hasAttribute("begin") && wordEl.hasAttribute("end")) {
          const word = { word: wordNode.textContent ?? "",
            startTime: parseTimespan(wordEl.getAttribute("begin") ?? ""),
            endTime: parseTimespan(wordEl.getAttribute("end") ?? "") };
          ... // amll:empty-beat passthrough omitted, see the document model
          line.words.push(word);
        }
      }
    }
    if (line.isBG) {
      const firstWord = line.words[0];
      if (firstWord?.word?.startsWith("(")) {
        firstWord.word = firstWord.word.substring(1);
        if (firstWord.word.length === 0) { line.words.shift(); }
      }
      const lastWord = line.words[line.words.length - 1];
      if (lastWord?.word?.endsWith(")")) {
        lastWord.word = lastWord.word.substring(0, lastWord.word.length - 1);
        if (lastWord.word.length === 0) { line.words.pop(); }
      }
    }
    if (haveBg) {
      const bgLine = lyricLines.pop();
      lyricLines.push(line);
      if (bgLine) lyricLines.push(bgLine);
    } else {
      lyricLines.push(line);
    }
  }
  for (const lineEl of ttmlDoc.querySelectorAll("body p[begin][end]")) {
    parseParseLine(lineEl);
  }
  return { metadata, lyricLines: lyricLines };
}
```

Modelling notes:
* The XML tree is a plain node tree (`XNode`); `getAttribute` returns the
  first binding of the attribute name or `none` (`null`); attribute-presence
  selectors (`[begin]`) and `hasAttribute` test presence regardless of value,
  while JS truthiness (`if (startTime && ...)`) additionally excludes the
  empty string.
* JSDOM parses the file as HTML, so `nodeName` is the upper-cased tag; the
  source immediately lower-cases it, which the model does directly.
  Selector matching (`p`, `ttm:agent`) is case-insensitive in HTML mode and
  is modelled on the lower-cased tag, in document (preorder) order.
* A thrown `parseTimespan` `TypeError` aborts the whole parse: modelled by
  `Option`, `none` propagating outward.
* Recursion into `x-bg` child spans is bounded by a fuel parameter
  (decremented once per nested line); fuel exhaustion returns `none`, so
  every theorem quantified over fuel covers the JS behavior (which never
  exhausts: the recursion depth is the tree depth).
* The crucial ordering fact for C7: the `else` branch that derives
  `line.startTime`/`line.endTime` via `reduce` runs *before* the word loop,
  when `line.words` is still `[]` — so it always yields
  `Infinity` / `0`, never the min/max of the syllables. -/

/-- A DOM node: a text node or an element with attributes and children. -/
inductive XNode where
  | text (content : String)
  | elem (tag : String) (attrs : List (String × String)) (children : List XNode)

/-- Model of `getAttribute`: the attribute's value, or `none` for `null`. -/
def getAttr (attrs : List (String × String)) (name : String) : Option String :=
  (attrs.find? fun p => p.1 = name).map (·.2)

/-- Model of `hasAttribute` (and of the `[begin]`-style presence selector). -/
def hasAttr (attrs : List (String × String)) (name : String) : Bool :=
  (attrs.find? fun p => p.1 = name).isSome

/-- JS truthiness of a nullable string: neither `null` nor `""`. -/
def truthy : Option String → Bool
  | none => false
  | some s => s ≠ ""

/-- Model of `toLowerCase`, over the character list. -/
def jsToLower (s : String) : String := ⟨s.data.map Char.toLower⟩

/-- Model of `textContent`: the concatenated text of all descendant text
nodes (fuel bounds the tree depth). -/
def textContentF : ℕ → XNode → String
  | _, .text s => s
  | 0, .elem _ _ _ => ""
  | fuel + 1, .elem _ _ children =>
    children.foldl (fun acc c => acc ++ textContentF fuel c) ""

/-- The mutable state of one `parseParseLine` invocation: the line fields
built by the child loop, the `haveBg` flag, and the shared `lyricLines`
accumulator (`acc`). -/
structure ParseSt where
  words : List Word
  translatedLyric : String
  romanLyric : String
  haveBg : Bool
  acc : List Line
deriving DecidableEq, Repr

/-- The background parenthesis stripping applied to a parsed `x-bg` line:
one leading `(` is removed from the first syllable (dropping it when it
becomes empty), then one trailing `)` from the last syllable of the result. -/
def stripParens (words : List Word) : List Word :=
  let ws₁ :=
    match words with
    | [] => []
    | w :: rest =>
      match w.word.data with
      | '(' :: ds =>
        if ds.length = 0 then rest else { w with word := ⟨ds⟩ } :: rest
      | _ => w :: rest
  match ws₁.getLast? with
  | none => ws₁
  | some lw =>
    if lw.word.data.getLast? = some ')' then
      if lw.word.data.dropLast.length = 0 then ws₁.dropLast
      else ws₁.dropLast ++ [{ lw with word := ⟨lw.word.data.dropLast⟩ }]
    else ws₁

mutual

/-- One invocation of `parseParseLine`: parses `lineEl` into a `Line`,
appends it (and a background child, reordered via the pop/push trick) to the
accumulator.  `none` models a thrown timestamp error (or fuel exhaustion,
unreachable in the JS). -/
def parseLineF : ℕ → String → XNode → Bool → List Line → Option (List Line)
  | 0, _, _, _, _ => none
  | _ + 1, _, .text _, _, _ => none
  | fuel + 1, agent, .elem _tag attrs children, isBG, lyricLines =>
    let agentAttr := getAttr attrs "ttm:agent"
    let isDuet := truthy agentAttr && decide (agentAttr ≠ some agent)
    let beginAttr := getAttr attrs "begin"
    let endAttr := getAttr attrs "end"
    let timesOpt : Option (JSNum × JSNum) :=
      if truthy beginAttr ∧ truthy endAttr then
        match parseTimespan (beginAttr.getD ""), parseTimespan (endAttr.getD "") with
        | some a, some b => some (.int a, .int b)
        | _, _ => none
      else
        -- `line.words.reduce(...)` runs here, before the word loop, so it
        -- folds over the empty list: `Infinity` for start, `0` for end.
        some (.posInf, .int 0)
    match timesOpt with
    | none => none
    | some (ls, le) =>
      match parseChildren fuel agent ls le children ⟨[], "", "", false, lyricLines⟩ with
      | none => none
      | some st =>
        let lineWords := if isBG then stripParens st.words else st.words
        let line : Line :=
          { words := lineWords, translatedLyric := st.translatedLyric,
            romanLyric := st.romanLyric, isBG := isBG, isDuet := isDuet,
            startTime := ls, endTime := le }
        if st.haveBg then
          some (st.acc.dropLast ++ line :: st.acc.getLast?.toList)
        else
          some (st.acc ++ [line])

/-- The `for (const wordNode of lineEl.childNodes)` loop. -/
def parseChildren (fuel : ℕ) (agent : String) (ls le : JSNum) :
    List XNode → ParseSt → Option ParseSt
  | [], st => some st
  | .text s :: rest, st =>
    parseChildren fuel agent ls le rest
      { st with words := st.words ++
          [⟨s, if (jsTrim s).length > 0 then ls else .int 0,
              if (jsTrim s).length > 0 then le else .int 0⟩] }
  | .elem tag attrs children :: rest, st =>
    let role := getAttr attrs "ttm:role"
    if jsToLower tag = "span" ∧ truthy role then
      if role = some "x-bg" then
        match parseLineF fuel agent (.elem tag attrs children) true st.acc with
        | none => none
        | some acc' =>
          parseChildren fuel agent ls le rest { st with acc := acc', haveBg := true }
      else if role = some "x-translation" then
        parseChildren fuel agent ls le rest
          { st with translatedLyric := textContentF fuel (.elem tag attrs children) }
      else if role = some "x-roman" then
        parseChildren fuel agent ls le rest
          { st with romanLyric := textContentF fuel (.elem tag attrs children) }
      else
        parseChildren fuel agent ls le rest st
    else if hasAttr attrs "begin" ∧ hasAttr attrs "end" then
      match parseTimespan ((getAttr attrs "begin").getD ""),
          parseTimespan ((getAttr attrs "end").getD "") with
      | some a, some b =>
        parseChildren fuel agent ls le rest
          { st with words := st.words ++
              [⟨textContentF fuel (.elem tag attrs children), .int a, .int b⟩] }
      | _, _ => none
    else
      parseChildren fuel agent ls le rest st

end

/-- The elements matched by `querySelectorAll("body p[begin][end]")`:
lower-cased tag `p` with both attributes present, strictly inside a `body`
element, in document (preorder) order. -/
def collectPs : ℕ → Bool → XNode → List XNode
  | _, _, .text _ => []
  | 0, _, .elem _ _ _ => []
  | fuel + 1, inBody, .elem tag attrs children =>
    (if inBody ∧ jsToLower tag = "p" ∧ hasAttr attrs "begin" ∧ hasAttr attrs "end" then
      [XNode.elem tag attrs children]
    else []) ++
      children.foldl
        (fun acc c => acc ++ collectPs fuel (inBody ∨ jsToLower tag = "body") c) []

/-- The elements matched by `querySelectorAll("ttm\\:agent")`, preorder. -/
def collectAgents : ℕ → XNode → List XNode
  | _, .text _ => []
  | 0, .elem _ _ _ => []
  | fuel + 1, .elem tag attrs children =>
    (if jsToLower tag = "ttm:agent" then [XNode.elem tag attrs children] else []) ++
      children.foldl (fun acc c => acc ++ collectAgents fuel c) []

/-- The main agent id: the first `ttm:agent` with `type="person"` and a
truthy `xml:id`, defaulting to `"v1"`. -/
def mainAgentId (fuel : ℕ) (doc : XNode) : String :=
  match (collectAgents fuel doc).find? fun e =>
      match e with
      | .elem _ attrs _ =>
        getAttr attrs "type" = some "person" && truthy (getAttr attrs "xml:id")
      | .text _ => false with
  | some (.elem _ attrs _) => (getAttr attrs "xml:id").getD "v1"
  | _ => "v1"

/-- The `for (const lineEl of ...)` loop over the selected paragraphs. -/
def parseLinesFold (fuel : ℕ) (agent : String) :
    List XNode → List Line → Option (List Line)
  | [], acc => some acc
  | p :: rest, acc =>
    match parseLineF fuel agent p false acc with
    | none => none
    | some acc' => parseLinesFold fuel agent rest acc'

/-- Model of `parseLyricInner` restricted to the line list (the `metadata`
collection touches only `metadata` and is not needed by any claim). -/
def parseLyricModel (fuel : ℕ) (doc : XNode) : Option (List Line) :=
  parseLinesFold fuel (mainAgentId fuel doc) (collectPs fuel false doc) []

/-- The direct `x-bg` span children of an element (the children that trigger
the recursive background parse). -/
def isBgSpan : XNode → Bool
  | .text _ => false
  | .elem tag attrs _ =>
    jsToLower tag = "span" && truthy (getAttr attrs "ttm:role") &&
      getAttr attrs "ttm:role" = some "x-bg"

/-- The list of direct background children of a node. -/
def bgChildren : XNode → List XNode
  | .text _ => []
  | .elem _ _ children => children.filter isBgSpan

/-- The adjacency invariant of claim C8: no background line comes first, and
every background line is immediately preceded by a non-background line. -/
def GoodBgSeq (lines : List Line) : Prop :=
  (∀ h ∈ lines.head?, h.isBG = false) ∧
    List.Chain' (fun a b => b.isBG = true → a.isBG = false) lines

/-- The adjacency invariant, lifted to the reader's optional result. -/
def GoodBgSeqOpt : Option (List Line) → Prop
  | none => True
  | some lines => GoodBgSeq lines

/-- The block structure of the reader's output: each parsed paragraph
appends either a single main line or a main line followed by its background
line. -/
inductive BgBlocks : List Line → Prop
  | nil : BgBlocks []
  | mainOnly (B : List Line) (m : Line) : BgBlocks B → m.isBG = false → BgBlocks (B ++ [m])
  | withBg (B : List Line) (m bg : Line) : BgBlocks B → m.isBG = false → bg.isBG = true →
      BgBlocks (B ++ [m, bg])

/-- A document whose one paragraph has two direct `x-bg` children (legal
input to the reader). -/
def twoBgDoc : XNode :=
  .elem "tt" [] [.elem "body" [] [.elem "p" [("begin", "1"), ("end", "3")]
    [.elem "span" [("ttm:role", "x-bg"), ("begin", "1"), ("end", "2")]
       [.elem "span" [("begin", "1"), ("end", "2")] [.text "b1"]],
     .elem "span" [("begin", "1"), ("end", "2")] [.text "main"],
     .elem "span" [("ttm:role", "x-bg"), ("begin", "1"), ("end", "2")]
       [.elem "span" [("begin", "1"), ("end", "2")] [.text "b2"]]]]]

/-- A document whose one paragraph has a single `x-bg` child. -/
def oneBgDoc : XNode :=
  .elem "tt" [] [.elem "body" [] [.elem "p" [("begin", "1"), ("end", "3")]
    [.elem "span" [("begin", "1"), ("end", "2")] [.text "main"],
     .elem "span" [("ttm:role", "x-bg"), ("begin", "1"), ("end", "2")]
       [.elem "span" [("begin", "1"), ("end", "2")] [.text "b1"]]]]]

/-! ## Whitespace normalizer: `normalizeLyricLine` (`src/unnamed/part_000`)

```js
export function normalizeLyricLine(line, lineIndex, logs) {
    if (!line || !line.words || line.words.length === 0) {
        return { newLine: line, changed: false };
    }
    const originalWordsString = JSON.stringify(line.words);
    const finalWords = [];
    let hasChanges = false;
    let pendingSpaces = 0;
    const logChange = (message) => {
        const logMessage = `- **第 ${lineIndex + 1} 行主歌词**: ${message}`;
        if (!logs.includes(logMessage)) { logs.push(logMessage); }
        hasChanges = true;
    };
    const processPendingSpaces = () => {
        if (pendingSpaces === 0) { return; }
        if (finalWords.length > 0) {
            finalWords.push({ word: ' ', startTime: 0, endTime: 0 });
            if (pendingSpaces > 1) {
                logChange(`合并了 ${pendingSpaces} 处不规范的词间空格。`);
            }
        } else {
            logChange(`移除了 ${pendingSpaces} 处不规范的首尾空格。`);
        }
        pendingSpaces = 0;
    };
    for (const wordObj of line.words) {
        if (!wordObj || typeof wordObj.word !== 'string') {
            logChange(`发现并跳过了一个无效的歌词音节。`);
            continue;
        }
        const match = wordObj.word.match(/^(\s*)([\s\S]*?)(\s*)$/);
        const leadingSpace = match[1];
        const coreText = match[2];
        const trailingSpace = match[3];
        if (coreText === '') {
            if (wordObj.word.length > 0) {
                pendingSpaces++;
                logChange(`发现了一个完全由空格组成的音节 \x60${wordObj.word}\x60`);
            }
            continue;
        }
        if (leadingSpace) {
            pendingSpaces++;
            logChange(`提取了音节 \x60${wordObj.word}\x60 的前导空格。`);
        }
        processPendingSpaces();
        const normalizedCoreText = coreText.split(/\s+/).join(' ');
        if (coreText !== normalizedCoreText) {
            logChange(`规范化了音节 \x60${coreText}\x60 内部的空格。`);
        }
        finalWords.push({ ...wordObj, word: normalizedCoreText });
        if (trailingSpace) {
            pendingSpaces++;
            logChange(`提取了音节 \x60${wordObj.word}\x60 的尾随空格。`);
        }
    }
    if (pendingSpaces > 0) {
        logChange(`移除了 ${pendingSpaces} 处不规范的首尾空格。`);
    }
    const changed = hasChanges || (JSON.stringify(finalWords) !== originalWordsString);
    const newLine = { ...line, words: finalWords };
    return { newLine, changed };
}
```

Modelling notes:
* The lazy-core regex `^(\s*)([\s\S]*?)(\s*)$` decomposes a string into its
  maximal whitespace prefix, the core, and the maximal whitespace suffix of
  the remainder.
* `\s` is modelled by `Char.isWhitespace` (space/tab/CR/LF); the claims only
  exercise plain spaces.
* `split(/\s+/).join(' ')` collapses every whitespace run into one space
  (a leading or trailing run becomes an empty `split` piece, which `join`
  renders as a single space around it, so the run/collapse description is
  exact for every input).
* The `logs` array is shared with the caller in JS; we model one call with a
  fresh collector, so the `logs.includes` deduplication sees exactly the
  messages of this call.
* `JSON.stringify` equality on these uniformly-shaped objects coincides with
  structural equality of the records (spread preserves key order, and the
  spread copy `{...wordObj, word}` overwrites `word` in place).
* A syllable whose `word` is not a string is modelled by `word = none`. -/

/-- A syllable as seen by the whitespace normalizer. -/
structure NWord where
  word : Option String
  startTime : JSNum
  endTime : JSNum
deriving DecidableEq, Repr

/-- A lyric line as seen by the whitespace normalizer (the other line fields
are copied through by `{ ...line, words: finalWords }` and never inspected,
so only `words` is modelled). -/
structure NLine where
  words : List NWord
deriving DecidableEq, Repr

/-- The synthesized separator `{ word: ' ', startTime: 0, endTime: 0 }`. -/
def sepWord : NWord := ⟨some " ", .int 0, .int 0⟩

/-- Model of `split(/\s+/).join(' ')`: collapse every whitespace run to one space.
The flag records whether the previous character was whitespace (in which case
further whitespace is absorbed into the already-emitted space). -/
def collapseWs : Bool → List Char → List Char
  | _, [] => []
  | prevWs, c :: t =>
    if c.isWhitespace then
      if prevWs then collapseWs true t else ' ' :: collapseWs true t
    else c :: collapseWs false t

/-- The normalizer's loop state: emitted syllables, the pending-space
counter, the log collector, and the `hasChanges` flag. -/
structure NormSt where
  finalWords : List NWord
  pending : ℕ
  logs : List String
  hasChanges : Bool
deriving DecidableEq, Repr

/-- Model of `logChange`: prefix the message with the 1-based line number, push it
unless already present, and set `hasChanges`. -/
def logChange (lineIndex : ℕ) (message : String) (st : NormSt) : NormSt :=
  let logMessage := "- **第 " ++ toString (lineIndex + 1) ++ " 行主歌词**: " ++ message
  { st with
    logs := if logMessage ∈ st.logs then st.logs else st.logs ++ [logMessage]
    hasChanges := true }

/-- Model of `processPendingSpaces`. -/
def processPendingSpaces (lineIndex : ℕ) (st : NormSt) : NormSt :=
  if st.pending = 0 then st
  else if st.finalWords.length > 0 then
    let st₁ := { st with finalWords := st.finalWords ++ [sepWord] }
    let st₂ :=
      if st.pending > 1 then
        logChange lineIndex
          ("合并了 " ++ toString st.pending ++ " 处不规范的词间空格。") st₁
      else st₁
    { st₂ with pending := 0 }
  else
    let st₁ :=
      logChange lineIndex
        ("移除了 " ++ toString st.pending ++ " 处不规范的首尾空格。") st
    { st₁ with pending := 0 }

/-- The decomposition performed by `word.match(/^(\s*)([\s\S]*?)(\s*)$/)`:
maximal whitespace prefix, lazy core, maximal whitespace suffix of the
remainder — `(leadingSpace, coreText, trailingSpace)` as character lists. -/
def decomposeWord (s : String) : List Char × List Char × List Char :=
  let leading := s.data.takeWhile Char.isWhitespace
  let rest := s.data.dropWhile Char.isWhitespace
  let core := (rest.reverse.dropWhile Char.isWhitespace).reverse
  let trailing := (rest.reverse.takeWhile Char.isWhitespace).reverse
  (leading, core, trailing)

/-- One iteration of the `for (const wordObj of line.words)` loop. -/
def normStep (lineIndex : ℕ) (st : NormSt) (w : NWord) : NormSt :=
  match w.word with
  | none => logChange lineIndex "发现并跳过了一个无效的歌词音节。" st
  | some s =>
    let dec := decomposeWord s
    let leading := dec.1
    let core := dec.2.1
    let trailing := dec.2.2
    if core = [] then
      if s.data ≠ [] then
        logChange lineIndex ("发现了一个完全由空格组成的音节 `" ++ s ++ "`")
          { st with pending := st.pending + 1 }
      else st
    else
      let st₁ :=
        if leading ≠ [] then
          logChange lineIndex ("提取了音节 `" ++ s ++ "` 的前导空格。")
            { st with pending := st.pending + 1 }
        else st
      let st₂ := processPendingSpaces lineIndex st₁
      let normalizedCore := collapseWs false core
      let st₃ :=
        if core ≠ normalizedCore then
          logChange lineIndex ("规范化了音节 `" ++ (⟨core⟩ : String) ++ "` 内部的空格。") st₂
        else st₂
      let st₄ := { st₃ with finalWords := st₃.finalWords ++ [{ w with word := some ⟨normalizedCore⟩ }] }
      if trailing ≠ [] then
        logChange lineIndex ("提取了音节 `" ++ s ++ "` 的尾随空格。")
          { st₄ with pending := st₄.pending + 1 }
      else st₄

/-- Model of `normalizeLyricLine`: returns the new line, the `changed` flag, and the
log messages produced by this call. -/
def normalizeLyricLine (line : NLine) (lineIndex : ℕ) : NLine × Bool × List String :=
  if line.words = [] then (line, false, [])
  else
    let st := line.words.foldl (normStep lineIndex) ⟨[], 0, [], false⟩
    let st' :=
      if st.pending > 0 then
        logChange lineIndex
          ("移除了 " ++ toString st.pending ++ " 处不规范的首尾空格。") st
      else st
    let changed := st'.hasChanges || decide (st'.finalWords ≠ line.words)
    ({ words := st'.finalWords }, changed, st'.logs)

/-! ## Normalized-shape invariants for the whitespace normalizer -/

/-- Characterization of a normalized core syllable: a nonempty word with
non-whitespace first and last characters that is a fixed point of whitespace
collapsing.  Every syllable emitted by the core branch of `normStep`
satisfies this. -/
def coreOk (w : NWord) : Prop :=
  ∃ s : String, w.word = some s ∧
    (∃ c t, s.data = c :: t ∧ ¬c.isWhitespace) ∧
    (∃ p d, s.data = p ++ [d] ∧ ¬d.isWhitespace) ∧
    collapseWs false s.data = s.data


/-- The shape of the syllable list produced by the normalizer: core
syllables, optionally separated by single synthesized space separators,
never starting or ending with a separator and never with two adjacent
separators. -/
inductive Alt : List NWord → Prop
  | nil : Alt []
  | single (c : NWord) : coreOk c → Alt [c]
  | consCore (c : NWord) (ws : List NWord) : coreOk c → Alt ws → ws ≠ [] → Alt (c :: ws)
  | consSep (c : NWord) (ws : List NWord) : coreOk c → Alt ws → ws ≠ [] → Alt (c :: sepWord :: ws)


/-! ## Theorems about the timestamp codec -/

/-- The regex of `parseTimespan` matches exactly when the string begins with a
digit: the optional `hour`/`min` groups impose no constraint on success, and
everything after the matched prefix is ignored. -/
theorem matchTimeGroups_isSome (cs : List Char) :
    (matchTimeGroups cs).isSome = (match cs with | [] => false | c :: _ => c.isDigit) := by
  match cs with
  | [] => rfl
  | c :: t =>
    by_cases hc : c.isDigit
    · have hne : (c :: t).takeWhile Char.isDigit ≠ [] := by
        simp [List.takeWhile_cons, hc]
      unfold matchTimeGroups
      simp only [if_neg hne, hc]
      repeat' (first | rfl | split)
    · have he : (c :: t).takeWhile Char.isDigit = [] := by
        simp [List.takeWhile_cons, hc]
      unfold matchTimeGroups
      simp [he, hc, Bool.eq_false_iff.mpr hc]

/-- C1 (status: code_bug).  The spec claims `Parse(Format(v)) == v` for every
`v` in `[0, 5_999_999]`, but the code computes
`Math.floor((hour*3600 + min*60 + sec) * 1000)` in double arithmetic, and for
`v = 1001` the double nearest `1.001` multiplied by `1000` is
`1000.9999999999999`, so the floor comes out one short: formatting `1001`
yields `"00:01.001"`, and parsing that string returns `1000`, not `1001`. -/
theorem c1_roundtrip_fails_at_1001 :
    msToTimestamp (.int 1001) = "00:01.001" ∧
      parseTimespan "00:01.001" = some 1000 := by
  constructor <;> decide

/-- C2 counterexample.  The claim says `Parse("01:75.000")` fails because of
the colon-form range rule; in fact the regex has no range check and the call
returns `135000` (= 1 min + 75 s). -/
theorem c2_range_rule_not_enforced : parseTimespan "01:75.000" = some 135000 := by
  decide

/-- C2 (status: corrected).  Amended claim: `Parse("01:75.000")` succeeds as
135000 ms (no range rule is enforced on colon-separated fields);
`Parse("95.000") == 95000`; `Parse("15.1") == 15100`; `Parse("12.3s") ==
12300`; trailing characters are ignored (`Parse("1x") == 1000`), and parsing
fails exactly on strings that do not begin with a digit, such as `"abc"`. -/
theorem c2_amended_grammar :
    parseTimespan "01:75.000" = some 135000 ∧
      parseTimespan "95.000" = some 95000 ∧
      parseTimespan "15.1" = some 15100 ∧
      parseTimespan "12.3s" = some 12300 ∧
      parseTimespan "1x" = some 1000 ∧
      parseTimespan "abc" = none := by
  refine ⟨?_, ?_, ?_, ?_, ?_, ?_⟩ <;> decide

/-- C3 (status: code_bug).  The spec says the unbounded value formats as the
sentinel `"99:99.999"`, and the code even contains
`if (timeMS === Infinity) return "99:99.999";` — but that branch is dead:
`Number.isSafeInteger(Infinity)` is `false`, so the preceding guard already
returns `"00:00.000"` for `Infinity`.  Negative and non-finite inputs all
format as the zero timestamp. -/
theorem c3_infinity_formats_as_zero :
    msToTimestamp .posInf = "00:00.000" ∧
      msToTimestamp (.int (-5)) = "00:00.000" ∧
      msToTimestamp .negInf = "00:00.000" ∧
      msToTimestamp .nan = "00:00.000" := by
  refine ⟨?_, ?_, ?_, ?_⟩ <;> decide

/-- C10 (status: confirmed).  `parseTimespan` is prefix-only: it succeeds
exactly when the string begins with a decimal digit (the colon-separated
forms also begin with a digit), and trailing characters after the matched
prefix are silently ignored — `"12.3sGARBAGE"` parses as 12300 ms and
`"1:2:3:4"` parses as `1:2` + `sec = "3:4"` → `3.4 s` → 3723400 ms. -/
theorem c10_parse_prefix_only :
    (∀ s : String, (parseTimespan s).isSome =
        (match s.data with | [] => false | c :: _ => c.isDigit)) ∧
      parseTimespan "12.3sGARBAGE" = some 12300 ∧
      parseTimespan "1:2:3:4" = some 3723400 := by
  refine ⟨fun s => ?_, by decide, by decide⟩
  unfold parseTimespan
  rw [show ∀ (o : Option (ℕ × ℕ × ℕ × List Char)) (f : ℕ × ℕ × ℕ × List Char → ℕ),
        (o.map f).isSome = o.isSome from fun o f => by cases o <;> rfl]
  exact matchTimeGroups_isSome s.data


/-! ## Theorems about the whitespace normalizer -/

theorem collapseWs_idem (l : List Char) :
    collapseWs false (collapseWs false l) = collapseWs false l ∧
      collapseWs true (collapseWs true l) = collapseWs true l := by
  induction l with
  | nil => exact ⟨rfl, rfl⟩
  | cons c t ih =>
    by_cases hc : c.isWhitespace
    · exact ⟨by simp [collapseWs, hc, ih.2], by simp [collapseWs, hc, ih.2]⟩
    · exact ⟨by simp [collapseWs, hc, ih.1], by simp [collapseWs, hc, ih.1]⟩

theorem collapseWs_concat (l : List Char) (d : Char) (hd : ¬d.isWhitespace) :
    ∀ b, ∃ p, collapseWs b (l ++ [d]) = p ++ [d] := by
  induction l with
  | nil => intro b; exact ⟨[], by simp [collapseWs, hd]⟩
  | cons c t ih =>
    intro b
    by_cases hc : c.isWhitespace
    · cases b with
      | true => simpa [collapseWs, hc] using ih true
      | false =>
        obtain ⟨p, hp⟩ := ih true
        exact ⟨' ' :: p, by simp [collapseWs, hc, hp]⟩
    · obtain ⟨p, hp⟩ := ih false
      exact ⟨c :: p, by simp [collapseWs, hc, hp]⟩

theorem decomposeWord_of_coreOk {s : String}
    (h1 : ∃ c t, s.data = c :: t ∧ ¬c.isWhitespace)
    (h2 : ∃ p d, s.data = p ++ [d] ∧ ¬d.isWhitespace) :
    decomposeWord s = ([], s.data, []) := by
  obtain ⟨c, t, hct, hc⟩ := h1
  obtain ⟨p, d, hpd, hd⟩ := h2
  have hrev : s.data.reverse = d :: p.reverse := by rw [hpd]; simp
  simp only [decomposeWord]
  rw [hct, List.takeWhile_cons, if_neg (by simpa using hc),
    List.dropWhile_cons, if_neg (by simpa using hc), ← hct, hrev,
    List.dropWhile_cons, if_neg (by simpa using hd),
    List.takeWhile_cons, if_neg (by simpa using hd), ← hrev, List.reverse_reverse]
  simp

theorem processPendingSpaces_zero (i : ℕ) (st : NormSt) (hp : st.pending = 0) :
    processPendingSpaces i st = st := by
  simp [processPendingSpaces, hp]

theorem processPendingSpaces_one (i : ℕ) (st : NormSt) (hp : st.pending = 1)
    (hf : st.finalWords ≠ []) :
    processPendingSpaces i st =
      { st with finalWords := st.finalWords ++ [sepWord], pending := 0 } := by
  simp [processPendingSpaces, hp, List.length_pos, hf]

theorem normStep_core (i : ℕ) (st : NormSt) (w : NWord) (hw : coreOk w) (hp : st.pending = 0) :
    normStep i st w = { st with finalWords := st.finalWords ++ [w] } := by
  obtain ⟨s, hws, h1, h2, hfix⟩ := hw
  have hne : s.data ≠ [] := by obtain ⟨c, t, hct, _⟩ := h1; rw [hct]; simp
  have hpush : ({ w with word := some ⟨s.data⟩ } : NWord) = w := by
    have heta : (⟨s.data⟩ : String) = s := rfl
    rw [heta]
    cases w with
    | mk ww a b =>
      simp_all
  simp only [normStep, hws, decomposeWord_of_coreOk h1 h2, hfix, ne_eq, not_true_eq_false,
    if_false, eq_self_iff_true, ite_false, ite_true, if_neg hne, not_false_eq_true]
  rw [processPendingSpaces_zero i st hp]
  simp [hpush]

theorem normStep_core_one (i : ℕ) (st : NormSt) (w : NWord) (hw : coreOk w)
    (hp : st.pending = 1) (hf : st.finalWords ≠ []) :
    normStep i st w = { st with finalWords := st.finalWords ++ [sepWord, w], pending := 0 } := by
  obtain ⟨s, hws, h1, h2, hfix⟩ := hw
  have hne : s.data ≠ [] := by obtain ⟨c, t, hct, _⟩ := h1; rw [hct]; simp
  have hpush : ({ w with word := some ⟨s.data⟩ } : NWord) = w := by
    have heta : (⟨s.data⟩ : String) = s := rfl
    rw [heta]
    cases w with
    | mk ww a b =>
      simp_all
  simp only [normStep, hws, decomposeWord_of_coreOk h1 h2, hfix, ne_eq, not_true_eq_false,
    if_false, eq_self_iff_true, ite_false, ite_true, if_neg hne, not_false_eq_true]
  rw [processPendingSpaces_one i st hp hf]
  simp [hpush]

theorem normStep_sep (i : ℕ) (st : NormSt) :
    (normStep i st sepWord).finalWords = st.finalWords ∧
      (normStep i st sepWord).pending = st.pending + 1 := by
  have hdec : decomposeWord " " = ([' '], [], []) := by decide
  simp [normStep, sepWord, hdec, logChange]


theorem Alt.append_core {F : List NWord} (h : Alt F) {c : NWord} (hc : coreOk c) :
    Alt (F ++ [c]) := by
  induction h with
  | nil => exact Alt.single c hc
  | single c0 h0 => exact Alt.consCore c0 [c] h0 (Alt.single c hc) (by simp)
  | consCore c0 ws h0 hws hne ih =>
    exact Alt.consCore c0 (ws ++ [c]) h0 ih (by simp)
  | consSep c0 ws h0 hws hne ih =>
    exact Alt.consSep c0 (ws ++ [c]) h0 ih (by simp)

theorem Alt.append_sep_core {F : List NWord} (h : Alt F) (hF : F ≠ []) {c : NWord}
    (hc : coreOk c) : Alt (F ++ [sepWord, c]) := by
  induction h with
  | nil => exact absurd rfl hF
  | single c0 h0 => exact Alt.consSep c0 [c] h0 (Alt.single c hc) (by simp)
  | consCore c0 ws h0 hws hne ih =>
    exact Alt.consCore c0 (ws ++ [sepWord, c]) h0 (ih hne) (by simp)
  | consSep c0 ws h0 hws hne ih =>
    exact Alt.consSep c0 (ws ++ [sepWord, c]) h0 (ih hne) (by simp)

theorem dropWhile_head_not {α : Type} {p : α → Bool} {l : List α} {c : α} {t : List α}
    (h : l.dropWhile p = c :: t) : ¬ p c := by
  induction l with
  | nil => simp at h
  | cons a l ih =>
    rw [List.dropWhile_cons] at h
    by_cases ha : p a
    · exact ih (by simpa [ha] using h)
    · simp only [ha, if_false] at h
      cases h
      simpa using ha

theorem processPendingSpaces_shape (i : ℕ) (st : NormSt) :
    (processPendingSpaces i st).finalWords = st.finalWords ∨
      (st.finalWords ≠ [] ∧
        (processPendingSpaces i st).finalWords = st.finalWords ++ [sepWord]) := by
  unfold processPendingSpaces
  split_ifs with h1 h2 h3
  · exact Or.inl rfl
  · exact Or.inr ⟨by rw [← List.length_pos]; exact h2, by simp [logChange]⟩
  · exact Or.inr ⟨by rw [← List.length_pos]; exact h2, by simp [logChange]⟩
  · exact Or.inl (by simp [logChange])

/-- The syllable pushed by the core branch of `normStep` is a normalized core
syllable: nonempty, whitespace-free at both ends, and collapse-fixed. -/
theorem coreOk_push (w : NWord) (s : String) (core : List Char)
    (hcore : core = ((s.data.dropWhile Char.isWhitespace).reverse.dropWhile
      Char.isWhitespace).reverse)
    (hne : core ≠ []) :
    coreOk { w with word := some ⟨collapseWs false core⟩ } := by
  set rest := s.data.dropWhile Char.isWhitespace with hrest
  -- the reversed core is nonempty and starts with a non-whitespace character
  have hrc : rest.reverse.dropWhile Char.isWhitespace ≠ [] := by
    intro h
    rw [hcore, h] at hne
    exact hne rfl
  obtain ⟨d, rd, hdrd⟩ : ∃ d rd, rest.reverse.dropWhile Char.isWhitespace = d :: rd := by
    cases h : rest.reverse.dropWhile Char.isWhitespace with
    | nil => exact absurd h hrc
    | cons d rd => exact ⟨d, rd, rfl⟩
  have hd : ¬d.isWhitespace := dropWhile_head_not hdrd
  have hcore2 : core = rd.reverse ++ [d] := by rw [hcore, hdrd]; simp
  -- rest = core ++ (trailing whitespace), so the heads agree
  have hdecomp : rest.reverse = List.takeWhile Char.isWhitespace rest.reverse ++
      List.dropWhile Char.isWhitespace rest.reverse :=
    (List.takeWhile_append_dropWhile (p := Char.isWhitespace) (l := rest.reverse)).symm
  have hsplit : rest = core ++ (rest.reverse.takeWhile Char.isWhitespace).reverse := by
    conv_lhs => rw [← List.reverse_reverse rest, hdecomp]
    rw [List.reverse_append, hcore]
  obtain ⟨r0, rt, hr0⟩ : ∃ r0 rt, rest = r0 :: rt := by
    cases h : rest with
    | nil =>
      rw [h] at hsplit
      rcases core with _ | _
      · exact absurd rfl hne
      · simp at hsplit
    | cons a b => exact ⟨a, b, rfl⟩
  have h0 : ¬r0.isWhitespace :=
    dropWhile_head_not (p := Char.isWhitespace) (l := s.data) (by rw [← hrest]; exact hr0)
  obtain ⟨ct, hct⟩ : ∃ ct, core = r0 :: ct := by
    cases hcc : core with
    | nil => exact absurd hcc hne
    | cons c0 ct =>
      rw [hcc] at hsplit
      rw [hr0] at hsplit
      simp only [List.cons_append, List.cons.injEq] at hsplit
      exact ⟨ct, by rw [hsplit.1]⟩
  refine ⟨⟨collapseWs false core⟩, rfl, ?_, ?_, ?_⟩
  · refine ⟨r0, collapseWs false ct, ?_, h0⟩
    show collapseWs false core = r0 :: collapseWs false ct
    rw [hct]
    simp [collapseWs, h0]
  · obtain ⟨p, hp⟩ := collapseWs_concat rd.reverse d hd false
    exact ⟨p, d, by show collapseWs false core = p ++ [d]; rw [hcore2, hp], hd⟩
  · show collapseWs false (collapseWs false core) = collapseWs false core
    exact (collapseWs_idem core).1

theorem logChange_finalWords (i : ℕ) (m : String) (st : NormSt) :
    (logChange i m st).finalWords = st.finalWords := rfl

theorem logChange_pending (i : ℕ) (m : String) (st : NormSt) :
    (logChange i m st).pending = st.pending := rfl

theorem finalWords_if_log (c : Prop) [Decidable c] (i : ℕ) (m : String) (stA stB : NormSt)
    (hAB : stA.finalWords = stB.finalWords) :
    (if c then logChange i m stA else stB).finalWords = stB.finalWords := by
  split <;> simp [logChange_finalWords, hAB]

theorem normStep_shape (i : ℕ) (st : NormSt) (w : NWord) :
    (normStep i st w).finalWords = st.finalWords ∨
      ∃ w', coreOk w' ∧
        ((normStep i st w).finalWords = st.finalWords ++ [w'] ∨
          (st.finalWords ≠ [] ∧
            (normStep i st w).finalWords = st.finalWords ++ [sepWord, w'])) := by
  cases hww : w.word with
  | none => exact Or.inl (by simp [normStep, hww, logChange_finalWords])
  | some s =>
    rcases hdec : decomposeWord s with ⟨ld, core, tr⟩
    by_cases hc : core = []
    · refine Or.inl ?_
      simp only [normStep, hww, hdec, if_pos hc]
      split <;> simp [logChange_finalWords]
    · right
      have hcoreq : core = ((s.data.dropWhile Char.isWhitespace).reverse.dropWhile
          Char.isWhitespace).reverse := by
        have h := congrArg (fun p : List Char × List Char × List Char => p.2.1) hdec
        simpa [decomposeWord] using h.symm
      refine ⟨{ w with word := some ⟨collapseWs false core⟩ }, coreOk_push w s core hcoreq hc, ?_⟩
      set D := if ld ≠ [] then
          logChange i ("提取了音节 `" ++ s ++ "` 的前导空格。")
            { st with pending := st.pending + 1 }
        else st with hDdef
      have hD : D.finalWords = st.finalWords := by
        rw [hDdef]; split <;> simp [logChange_finalWords]
      have hred : (normStep i st w).finalWords =
          (processPendingSpaces i D).finalWords ++ [{ w with word := some ⟨collapseWs false core⟩ }] := by
        simp only [normStep, hww, hdec, if_neg hc, ← hDdef]
        rw [finalWords_if_log _ i _ _ _ (by rfl)]
        rw [finalWords_if_log _ i _ _ _ (by rfl)]
      rcases processPendingSpaces_shape i D with h | ⟨h1, h2⟩
      · exact Or.inl (by rw [hred, h, hD])
      · exact Or.inr ⟨hD ▸ h1, by rw [hred, h2, hD]; simp⟩

theorem foldl_normStep_alt (i : ℕ) (ws : List NWord) (st : NormSt)
    (h : Alt st.finalWords) : Alt ((ws.foldl (normStep i) st).finalWords) := by
  induction ws generalizing st with
  | nil => exact h
  | cons w ws ih =>
    rw [List.foldl_cons]
    apply ih
    rcases normStep_shape i st w with h0 | ⟨w', hw', h1 | ⟨hne, h1⟩⟩
    · rw [h0]; exact h
    · rw [h1]; exact h.append_core hw'
    · rw [h1]; exact h.append_sep_core hne hw'

theorem normalizeLyricLine_words_run (i : ℕ) (line : NLine) (h : line.words ≠ []) :
    (normalizeLyricLine line i).1.words =
      (line.words.foldl (normStep i) ⟨[], 0, [], false⟩).finalWords := by
  unfold normalizeLyricLine
  rw [if_neg h]
  dsimp only
  split <;> rfl

theorem normalize_words_alt (line : NLine) (i : ℕ) :
    Alt ((normalizeLyricLine line i).1.words) := by
  by_cases h : line.words = []
  · unfold normalizeLyricLine
    rw [if_pos h]
    exact h ▸ Alt.nil
  · rw [normalizeLyricLine_words_run i line h]
    exact foldl_normStep_alt i line.words ⟨[], 0, [], false⟩ Alt.nil

theorem foldl_normStep_fixed (i : ℕ) {ws : List NWord} (h : Alt ws) :
    ∀ st : NormSt,
      (st.pending = 0 →
        (ws.foldl (normStep i) st).finalWords = st.finalWords ++ ws ∧
          (ws.foldl (normStep i) st).pending = 0) ∧
      (st.pending = 1 → st.finalWords ≠ [] → ws ≠ [] →
        (ws.foldl (normStep i) st).finalWords = st.finalWords ++ sepWord :: ws ∧
          (ws.foldl (normStep i) st).pending = 0) := by
  induction h with
  | nil =>
    intro st
    exact ⟨fun hp => ⟨by simp, hp⟩, fun _ _ hne => absurd rfl hne⟩
  | single c hc =>
    intro st
    refine ⟨fun hp => ?_, fun hp hf _ => ?_⟩
    · rw [List.foldl_cons, List.foldl_nil, normStep_core i st c hc hp]
      exact ⟨rfl, hp⟩
    · rw [List.foldl_cons, List.foldl_nil, normStep_core_one i st c hc hp hf]
      exact ⟨rfl, rfl⟩
  | consCore c ws hc hws hne ih =>
    intro st
    refine ⟨fun hp => ?_, fun hp hf _ => ?_⟩
    · rw [List.foldl_cons, normStep_core i st c hc hp]
      obtain ⟨h1, h2⟩ := (ih { st with finalWords := st.finalWords ++ [c] }).1 hp
      refine ⟨?_, h2⟩
      rw [h1]; simp
    · rw [List.foldl_cons, normStep_core_one i st c hc hp hf]
      obtain ⟨h1, h2⟩ :=
        (ih { st with finalWords := st.finalWords ++ [sepWord, c], pending := 0 }).1 rfl
      refine ⟨?_, h2⟩
      rw [h1]; simp
  | consSep c ws hc hws hne ih =>
    intro st
    refine ⟨fun hp => ?_, fun hp hf _ => ?_⟩
    · rw [List.foldl_cons, List.foldl_cons, normStep_core i st c hc hp]
      obtain ⟨hf2, hp2⟩ := normStep_sep i { st with finalWords := st.finalWords ++ [c] }
      obtain ⟨h1, h2⟩ :=
        (ih (normStep i { st with finalWords := st.finalWords ++ [c] } sepWord)).2
          (by rw [hp2]; show st.pending + 1 = 1; rw [hp])
          (by rw [hf2]; simp) hne
      refine ⟨?_, h2⟩
      rw [h1, hf2]
      simp
    · rw [List.foldl_cons, List.foldl_cons, normStep_core_one i st c hc hp hf]
      obtain ⟨hf2, hp2⟩ :=
        normStep_sep i { st with finalWords := st.finalWords ++ [sepWord, c], pending := 0 }
      obtain ⟨h1, h2⟩ :=
        (ih (normStep i
            { st with finalWords := st.finalWords ++ [sepWord, c], pending := 0 } sepWord)).2
          (by rw [hp2])
          (by rw [hf2]; simp) hne
      refine ⟨?_, h2⟩
      rw [h1, hf2]
      simp

/-- C4 counterexample.  The claim says a second application of
`NormalizeLine` to its own output produces an empty change log and
`changed == false`; in fact the separator syllable synthesized by the first
pass is itself a whitespace-only syllable, so the second pass logs it again
and reports `changed == true`. -/
theorem c4_second_pass_not_silent :
    (normalizeLyricLine (normalizeLyricLine
        ⟨[⟨some "a", .int 0, .int 1⟩, ⟨some " b", .int 1, .int 2⟩]⟩ 0).1 0).2.1 = true ∧
      (normalizeLyricLine (normalizeLyricLine
        ⟨[⟨some "a", .int 0, .int 1⟩, ⟨some " b", .int 1, .int 2⟩]⟩ 0).1 0).2.2 =
        ["- **第 1 行主歌词**: 发现了一个完全由空格组成的音节 ` `"] := by
  constructor <;> decide

/-- C4 (status: corrected).  Amended claim: the syllable sequence is
idempotent — normalizing the output of `normalizeLyricLine` yields the same
syllable sequence again — but the second application is not silent: each
synthesized space separator is re-reported as a whitespace-only syllable, so
the change log of the second run need not be empty and `changed` may be
`true`. -/
theorem c4_amended_words_idempotent (line : NLine) (i j : ℕ) :
    (normalizeLyricLine (normalizeLyricLine line i).1 j).1.words =
      (normalizeLyricLine line i).1.words := by
  have halt := normalize_words_alt line i
  set out := (normalizeLyricLine line i).1 with hout
  by_cases h : out.words = []
  · unfold normalizeLyricLine
    rw [if_pos h]
  · rw [normalizeLyricLine_words_run j out h]
    obtain ⟨h1, h2⟩ := (foldl_normStep_fixed j halt ⟨[], 0, [], false⟩).1 rfl
    rw [h1]
    rfl

/-- C9 (status: confirmed).  The syllable texts `["word1 ", " word2", "  "]`
normalize to `["word1", " ", "word2"]`, keeping the original timestamps on
the core syllables and zero timestamps on the synthesized separator, with
`changed == true` and log entries for the extracted trailing/leading spaces,
the merged inter-word spaces, the whitespace-only syllable, and the removed
trailing space. -/
theorem c9_collapse_example :
    normalizeLyricLine
        ⟨[⟨some "word1 ", .int 0, .int 1000⟩, ⟨some " word2", .int 1000, .int 2000⟩,
          ⟨some "  ", .int 2000, .int 2100⟩]⟩ 0 =
      (⟨[⟨some "word1", .int 0, .int 1000⟩, ⟨some " ", .int 0, .int 0⟩,
          ⟨some "word2", .int 1000, .int 2000⟩]⟩, true,
        ["- **第 1 行主歌词**: 提取了音节 `word1 ` 的尾随空格。",
         "- **第 1 行主歌词**: 提取了音节 ` word2` 的前导空格。",
         "- **第 1 行主歌词**: 合并了 2 处不规范的词间空格。",
         "- **第 1 行主歌词**: 发现了一个完全由空格组成的音节 `  `",
         "- **第 1 行主歌词**: 移除了 1 处不规范的首尾空格。"]) := by
  decide


/-! ## Theorems about the validator and the writer's background rendering -/

theorem renderBgGo_tail (mid : List Word) (len : ℕ) (wl : Word) (idx : ℕ)
    (acc : List BgChild) (bt et : JSNum)
    (hl : (jsTrim wl.word).length ≠ 0) (hidx : 1 ≤ idx)
    (hsum : idx + mid.length = len - 1) :
    (renderBgGo len (mid ++ [wl]) idx acc bt et).1 =
      acc ++ mid.map midBgChild ++
        [.span { createWordElement wl with content := wl.word ++ ")" }] := by
  induction mid generalizing idx acc bt et with
  | nil =>
    simp only [List.length_nil, Nat.add_zero] at hsum
    have h0 : idx ≠ 0 := by omega
    simp only [List.nil_append, List.map_nil, renderBgGo, if_neg hl, if_neg h0, if_pos hsum]
    simp [createWordElement]
  | cons m mid ih =>
    simp only [List.length_cons] at hsum
    have h0 : idx ≠ 0 := by omega
    have hlast : idx ≠ len - 1 := by omega
    simp only [List.cons_append, List.map_cons]
    by_cases hm : (jsTrim m.word).length = 0
    · simp only [renderBgGo, if_pos hm]
      rw [ih (idx + 1) _ _ _ (by omega) (by omega)]
      simp [midBgChild, hm]
    · simp only [renderBgGo, if_neg hm, if_neg h0, if_neg hlast]
      rw [ih (idx + 1) _ _ _ (by omega) (by omega)]
      simp [midBgChild, hm]

theorem renderBgWords_shape (w0 : Word) (mid : List Word) (wl : Word)
    (h0 : (jsTrim w0.word).length ≠ 0) (hl : (jsTrim wl.word).length ≠ 0) :
    (renderBgWords (w0 :: mid ++ [wl])).1 =
      .span { createWordElement w0 with content := "(" ++ w0.word } ::
        mid.map midBgChild ++
        [.span { createWordElement wl with content := wl.word ++ ")" }] := by
  unfold renderBgWords
  simp only [renderBgGo, if_neg h0, eq_self_iff_true, if_true, Nat.zero_add, List.append_eq,
    List.nil_append]
  rw [renderBgGo_tail mid _ wl 1 _ _ _ hl (by omega) (by simp [List.length_append]; omega)]
  simp [createWordElement]

theorem contentOf_midBgChild (w : Word) : (midBgChild w).contentOf = w.word := by
  unfold midBgChild
  split <;> rfl

/-- C6 (status: confirmed).  A document with zero lines yields exactly the
one document-level defect `"歌词内容为空"` and nothing else; a document with
one line whose only syllable has `start = 100`, `end = 50` (line timing
valid) yields exactly the one end-before-start defect naming line 1 and
syllable 1.  The model is a total function, so no input can make it throw. -/
theorem c6_validator_exactness :
    checkLyric [] = ["歌词内容为空"] ∧
      checkLyric [⟨[⟨"hi", .int 100, .int 50⟩], "", "", false, false, .int 100, .int 500⟩] =
        ["第 1 行歌词的第 1 个单词 \"hi\" 结束时间有误/小于开始时间 (50)"] := by
  constructor <;> decide

/-- C5 counterexample.  The claim says a background line whose first
syllable's stored text already starts with `(` is not given a second `(` on
serialization; in fact `span.prepend(doc.createTextNode("("))` is
unconditional, so the first syllable `"(hello"` renders as `"((hello"`. -/
theorem c5_paren_doubled :
    ((renderBgWords [⟨"(hello", .int 100, .int 500⟩, ⟨"world", .int 600, .int 1000⟩]).1).map
        BgChild.contentOf = ["((hello", "world)"] := by
  decide

/-- C5 (status: corrected).  Amended claim: for a multi-syllable background
line whose first and last syllables are non-whitespace, serialization adds
exactly one `(` before the first syllable's text and one `)` after the last
syllable's text, unconditionally — whether or not parentheses are already
present (so already-parenthesized text is doubled); middle syllables render
unchanged. -/
theorem c5_amended_parens (w0 : Word) (mid : List Word) (wl : Word)
    (h0 : (jsTrim w0.word).length ≠ 0) (hl : (jsTrim wl.word).length ≠ 0) :
    ((renderBgWords (w0 :: mid ++ [wl])).1).map BgChild.contentOf =
      ("(" ++ w0.word) :: mid.map (fun w => w.word) ++ [wl.word ++ ")"] := by
  rw [renderBgWords_shape w0 mid wl h0 hl]
  simp [BgChild.contentOf, createWordElement, contentOf_midBgChild]
  exact fun a _ => contentOf_midBgChild a

/-- Witness for C5: the amended parenthesis rule applied to the concrete
background line `["Hello", " ", "world"]`. -/
theorem c5_amended_parens_witness :
    (jsTrim (Word.mk "Hello" (.int 100) (.int 500)).word).length ≠ 0 ∧
      (jsTrim (Word.mk "world" (.int 600) (.int 1000)).word).length ≠ 0 ∧
      ((renderBgWords (⟨"Hello", .int 100, .int 500⟩ :: [⟨" ", .int 0, .int 0⟩] ++
          [⟨"world", .int 600, .int 1000⟩])).1).map BgChild.contentOf =
        ("(" ++ "Hello") :: [(⟨" ", .int 0, .int 0⟩ : Word)].map (fun w => w.word) ++
          ["world" ++ ")"] :=
  ⟨by decide, by decide,
    c5_amended_parens ⟨"Hello", .int 100, .int 500⟩ [⟨" ", .int 0, .int 0⟩]
      ⟨"world", .int 600, .int 1000⟩ (by decide) (by decide)⟩


/-! ## Theorems about the TTML reader -/

theorem filter_singleton_split {α : Type} (p : α → Bool) (l : List α) (g : α)
    (h : l.filter p = [g]) :
    ∃ pre post, l = pre ++ g :: post ∧ (∀ c ∈ pre, p c = false) ∧
      (∀ c ∈ post, p c = false) := by
  induction l with
  | nil => simp at h
  | cons a l ih =>
    rw [List.filter_cons] at h
    by_cases ha : p a
    · rw [if_pos ha] at h
      injection h with h1 h2
      subst h1
      refine ⟨[], l, by simp, by simp, fun c hc => ?_⟩
      have := List.filter_eq_nil_iff.mp h2 c hc
      simpa using this
    · rw [if_neg ha] at h
      obtain ⟨pre, post, rfl, hpre, hpost⟩ := ih h
      exact ⟨a :: pre, post, rfl, by
        intro c hc
        rcases List.mem_cons.mp hc with rfl | hc
        · simpa using ha
        · exact hpre c hc, hpost⟩

/-- Processing a non-background child leaves the accumulator and the
`haveBg` flag untouched (or fails). -/
theorem parseChildren_cons_nonBg (fuel : ℕ) (agent : String) (ls le : JSNum)
    (c : XNode) (rest : List XNode) (st : ParseSt) (hc : isBgSpan c = false) :
    parseChildren fuel agent ls le (c :: rest) st = none ∨
      ∃ st₁ : ParseSt, parseChildren fuel agent ls le (c :: rest) st =
        parseChildren fuel agent ls le rest st₁ ∧
        st₁.acc = st.acc ∧ st₁.haveBg = st.haveBg := by
  cases c with
  | text s => exact Or.inr ⟨_, rfl, rfl, rfl⟩
  | elem tag attrs children =>
    rw [parseChildren]
    by_cases hspan : jsToLower tag = "span" ∧ truthy (getAttr attrs "ttm:role")
    · rw [if_pos hspan]
      by_cases hbg : getAttr attrs "ttm:role" = some "x-bg"
      · exfalso
        have : isBgSpan (.elem tag attrs children) = true := by
          simp [isBgSpan, hspan.1, hspan.2, hbg, truthy]
        rw [this] at hc
        simp at hc
      · rw [if_neg hbg]
        by_cases htr : getAttr attrs "ttm:role" = some "x-translation"
        · rw [if_pos htr]
          exact Or.inr ⟨_, rfl, rfl, rfl⟩
        · rw [if_neg htr]
          by_cases hro : getAttr attrs "ttm:role" = some "x-roman"
          · rw [if_pos hro]
            exact Or.inr ⟨_, rfl, rfl, rfl⟩
          · rw [if_neg hro]
            exact Or.inr ⟨_, rfl, rfl, rfl⟩
    · rw [if_neg hspan]
      by_cases hbe : hasAttr attrs "begin" = true ∧ hasAttr attrs "end" = true
      · rw [if_pos hbe]
        cases hb : parseTimespan ((getAttr attrs "begin").getD "") with
        | none => exact Or.inl (by simp)
        | some a =>
          cases he : parseTimespan ((getAttr attrs "end").getD "") with
          | none => exact Or.inl (by simp)
          | some b =>
            exact Or.inr ⟨{ st with words := st.words ++
              [⟨textContentF fuel (.elem tag attrs children), .int a, .int b⟩] },
              rfl, rfl, rfl⟩
      · rw [if_neg hbe]
        exact Or.inr ⟨_, rfl, rfl, rfl⟩

theorem parseChildren_noBg (fuel : ℕ) (agent : String) (ls le : JSNum)
    (ns : List XNode) (st st' : ParseSt)
    (hbg : ∀ c ∈ ns, isBgSpan c = false)
    (h : parseChildren fuel agent ls le ns st = some st') :
    st'.acc = st.acc ∧ st'.haveBg = st.haveBg := by
  induction ns generalizing st with
  | nil =>
    rw [parseChildren] at h
    cases h
    exact ⟨rfl, rfl⟩
  | cons c rest ih =>
    rcases parseChildren_cons_nonBg fuel agent ls le c rest st
        (hbg c (List.mem_cons_self c rest)) with hnone | ⟨st₁, heq, hacc, hbg1⟩
    · rw [hnone] at h
      cases h
    · rw [heq] at h
      obtain ⟨h1, h2⟩ := ih st₁ (fun c hc => hbg c (List.mem_cons_of_mem _ hc)) h
      exact ⟨h1.trans hacc, h2.trans hbg1⟩

theorem parseLineF_noBg (fuel : ℕ) (agent : String) (e : XNode) (isBG : Bool)
    (acc acc' : List Line)
    (hbg : (bgChildren e).length = 0)
    (h : parseLineF fuel agent e isBG acc = some acc') :
    ∃ ℓ : Line, acc' = acc ++ [ℓ] ∧ ℓ.isBG = isBG := by
  match fuel, e with
  | 0, _ =>
    rw [parseLineF] at h
    exact Option.noConfusion h
  | fuel + 1, .text s =>
    rw [parseLineF] at h
    exact Option.noConfusion h
  | fuel + 1, .elem tag attrs children =>
    rw [parseLineF] at h
    split at h
    · exact Option.noConfusion h
    case _ ls le _ =>
      split at h
      · exact Option.noConfusion h
      case _ st hst =>
        have hall : ∀ c ∈ children, isBgSpan c = false := by
          intro c hc
          have h0 := List.length_eq_zero.mp hbg
          simp only [bgChildren] at h0
          have := List.filter_eq_nil_iff.mp h0 c hc
          simpa using this
        obtain ⟨hacc, hbg2⟩ := parseChildren_noBg fuel agent ls le children
          ⟨[], "", "", false, acc⟩ st hall hst
        rw [hbg2] at h
        simp only [Bool.false_eq_true, if_false] at h
        cases h
        have hacc' : st.acc = acc := hacc
        rw [hacc']
        exact ⟨_, rfl, rfl⟩

theorem parseChildren_oneBg (fuel : ℕ) (agent : String) (ls le : JSNum)
    (pre post : List XNode) (g : XNode)
    (hpre : ∀ c ∈ pre, isBgSpan c = false) (hpost : ∀ c ∈ post, isBgSpan c = false)
    (hg : isBgSpan g = true) (hgbg : (bgChildren g).length = 0)
    (st st' : ParseSt)
    (h : parseChildren fuel agent ls le (pre ++ g :: post) st = some st') :
    ∃ bg : Line, bg.isBG = true ∧ st'.acc = st.acc ++ [bg] ∧ st'.haveBg = true := by
  induction pre generalizing st with
  | nil =>
    simp only [List.nil_append] at h
    match g, hg with
    | .elem tag attrs children, hg =>
      simp only [isBgSpan, Bool.and_eq_true, decide_eq_true_eq] at hg
      obtain ⟨⟨hs, ht⟩, hrole⟩ := hg
      rw [parseChildren, if_pos ⟨hs, ht⟩, if_pos hrole] at h
      split at h
      · exact Option.noConfusion h
      case _ acc' hrec =>
        obtain ⟨bg, hbgacc, hbgflag⟩ := parseLineF_noBg fuel agent
          (.elem tag attrs children) true st.acc acc' hgbg hrec
        obtain ⟨hacc2, hflag2⟩ := parseChildren_noBg fuel agent ls le post
          _ st' hpost h
        refine ⟨bg, hbgflag, ?_, by rw [hflag2]⟩
        rw [hacc2]
        simpa using hbgacc
  | cons c pre ih =>
    rw [List.cons_append] at h
    rcases parseChildren_cons_nonBg fuel agent ls le c (pre ++ g :: post) st
        (hpre c (List.mem_cons_self c pre)) with hnone | ⟨st₁, heq, hacc, hflag⟩
    · rw [hnone] at h
      exact Option.noConfusion h
    · rw [heq] at h
      obtain ⟨bg, h1, h2, h3⟩ := ih (fun c hc => hpre c (List.mem_cons_of_mem _ hc)) st₁ h
      exact ⟨bg, h1, by rw [h2, hacc], h3⟩

theorem parseLineF_oneBg (fuel : ℕ) (agent : String) (e : XNode)
    (acc acc' : List Line)
    (hbg : (bgChildren e).length = 1)
    (hinner : ∀ g ∈ bgChildren e, (bgChildren g).length = 0)
    (h : parseLineF fuel agent e false acc = some acc') :
    ∃ m bg : Line, acc' = acc ++ [m, bg] ∧ m.isBG = false ∧ bg.isBG = true := by
  match fuel, e with
  | 0, _ =>
    rw [parseLineF] at h
    exact Option.noConfusion h
  | fuel + 1, .text s =>
    rw [parseLineF] at h
    exact Option.noConfusion h
  | fuel + 1, .elem tag attrs children =>
    obtain ⟨g, hgeq⟩ : ∃ g, bgChildren (XNode.elem tag attrs children) = [g] := by
      cases hc : bgChildren (XNode.elem tag attrs children) with
      | nil => rw [hc] at hbg; cases hbg
      | cons g rest =>
        rw [hc] at hbg
        have hr : rest = [] := List.length_eq_zero.mp (by simpa using hbg)
        exact ⟨g, by rw [hr]⟩
    have hgmem : g ∈ bgChildren (XNode.elem tag attrs children) := by rw [hgeq]; simp
    have hgbg0 : (bgChildren g).length = 0 := hinner g hgmem
    have hgspan : isBgSpan g = true := by
      have := List.mem_filter.mp (by simpa [bgChildren] using hgmem)
      exact this.2
    obtain ⟨pre, post, hsplit, hpre, hpost⟩ :=
      filter_singleton_split isBgSpan children g (by simpa [bgChildren] using hgeq)
    rw [parseLineF] at h
    split at h
    · exact Option.noConfusion h
    case _ ls le _ =>
      split at h
      · exact Option.noConfusion h
      case _ st hst =>
        rw [hsplit] at hst
        obtain ⟨bg, hbgflag, hacc, hflag⟩ := parseChildren_oneBg fuel agent ls le
          pre post g hpre hpost hgspan hgbg0 ⟨[], "", "", false, acc⟩ st hst
        rw [hflag] at h
        simp only [if_true] at h
        cases h
        have hacc' : st.acc = acc ++ [bg] := hacc
        rw [hacc', List.dropLast_concat, List.getLast?_concat]
        exact ⟨_, bg, rfl, rfl, hbgflag⟩

theorem parseLinesFold_blocks (fuel : ℕ) (agent : String) (ps : List XNode)
    (acc res : List Line)
    (hps : ∀ p ∈ ps, (bgChildren p).length ≤ 1 ∧
      ∀ g ∈ bgChildren p, (bgChildren g).length = 0)
    (hacc : BgBlocks acc)
    (h : parseLinesFold fuel agent ps acc = some res) : BgBlocks res := by
  induction ps generalizing acc with
  | nil =>
    rw [parseLinesFold] at h
    cases h
    exact hacc
  | cons p rest ih =>
    rw [parseLinesFold] at h
    split at h
    · exact Option.noConfusion h
    case _ acc' hp =>
      obtain ⟨hlen, hinner⟩ := hps p (List.mem_cons_self p rest)
      have hnext : BgBlocks acc' := by
        rcases Nat.lt_or_ge (bgChildren p).length 1 with h1 | h1
        · obtain ⟨ℓ, rfl, hflag⟩ := parseLineF_noBg fuel agent p false acc acc'
            (by omega) hp
          exact BgBlocks.mainOnly acc ℓ hacc hflag
        · obtain ⟨m, bg, rfl, hm, hbgf⟩ := parseLineF_oneBg fuel agent p acc acc'
            (by omega) hinner hp
          exact BgBlocks.withBg acc m bg hacc hm hbgf
      exact ih acc' (fun q hq => hps q (List.mem_cons_of_mem _ hq)) hnext h

theorem BgBlocks.goodBgSeq {lines : List Line} (h : BgBlocks lines) : GoodBgSeq lines := by
  induction h with
  | nil => exact ⟨by simp, List.chain'_nil⟩
  | mainOnly B m hB hm ih =>
    obtain ⟨ih1, ih2⟩ := ih
    constructor
    · intro x hx
      cases B with
      | nil => simp at hx; rw [← hx]; exact hm
      | cons b B' =>
        simp only [List.cons_append, List.head?_cons, Option.mem_some_iff] at hx ⊢
        exact hx ▸ ih1 b (by simp)
    · rw [List.chain'_append]
      exact ⟨ih2, List.chain'_singleton m, fun x _ y hy => by
        simp only [List.head?_cons, Option.mem_some_iff] at hy
        subst hy
        intro hcon
        rw [hm] at hcon
        exact absurd hcon (by simp)⟩
  | withBg B m bg hB hm hbg ih =>
    obtain ⟨ih1, ih2⟩ := ih
    constructor
    · intro x hx
      cases B with
      | nil => simp at hx; rw [← hx]; exact hm
      | cons b B' =>
        simp only [List.cons_append, List.head?_cons, Option.mem_some_iff] at hx ⊢
        exact hx ▸ ih1 b (by simp)
    · rw [List.chain'_append]
      refine ⟨ih2, ?_, fun x _ y hy => by
        simp only [List.head?_cons, Option.mem_some_iff] at hy
        subst hy
        intro hcon
        rw [hm] at hcon
        exact absurd hcon (by simp)⟩
      exact List.chain'_cons.mpr ⟨fun _ => hm, List.chain'_singleton bg⟩

/-- C7 (status: code_bug).  The spec says that when the `begin`/`end`
attribute pair is absent (here: present but empty, hence falsy), the line's
timestamps are derived as min/max over its syllables — but the `reduce` that
computes them runs *before* the child loop, over the still-empty `words`
array, so the line gets `startTime = Infinity` and `endTime = 0` even though
its one timed syllable spans 1000–5000 ms. -/
theorem c7_derived_times_are_infinity_zero :
    parseLineF 10 "v1" (.elem "p" [("begin", ""), ("end", "")]
        [.elem "span" [("begin", "1"), ("end", "5")] [.text "hi"]]) false [] =
      some [⟨[⟨"hi", .int 1000, .int 5000⟩], "", "", false, false, .posInf, .int 0⟩] := by
  decide

/-- C8 counterexample.  The claim says no background line exists at any
position other than immediately after its main line — in particular never
first.  A paragraph with two `x-bg` children refutes it: the pop/push trick
reorders only the *last* background line behind the main line, so the parse
produces `[background, main, background]`, with a background line first. -/
theorem c8_two_bg_children_break_adjacency :
    (parseLyricModel 10 twoBgDoc).map (fun ls => ls.map Line.isBG) =
      some [true, false, true] := by
  decide

/-- C8 (status: corrected).  Amended claim: provided every selected
paragraph has at most one direct `x-bg` child span and those spans contain
no nested `x-bg` child of their own, every background line in the produced
document appears immediately after the main line whose `x-bg` child produced
it (never first, never separated); with several `x-bg` children the extra
background lines are emitted *before* their main line. -/
theorem c8_amended_bg_adjacency (fuel : ℕ) (doc : XNode)
    (h : ∀ p ∈ collectPs fuel false doc, (bgChildren p).length ≤ 1 ∧
      ∀ g ∈ bgChildren p, (bgChildren g).length = 0) :
    GoodBgSeqOpt (parseLyricModel fuel doc) := by
  unfold parseLyricModel
  cases hres : parseLinesFold fuel (mainAgentId fuel doc) (collectPs fuel false doc) [] with
  | none => exact trivial
  | some lines =>
    exact (parseLinesFold_blocks fuel (mainAgentId fuel doc) (collectPs fuel false doc)
      [] lines h BgBlocks.nil hres).goodBgSeq

/-- Witness for C8: the amended adjacency invariant applied to the concrete
single-background document. -/
theorem c8_amended_bg_adjacency_witness :
    (∀ p ∈ collectPs 10 false oneBgDoc, (bgChildren p).length ≤ 1 ∧
      ∀ g ∈ bgChildren p, (bgChildren g).length = 0) ∧
      GoodBgSeqOpt (parseLyricModel 10 oneBgDoc) :=
  ⟨by decide, c8_amended_bg_adjacency 10 oneBgDoc (by decide)⟩

end Amll
